import Mathlib

/-!
Shallow embedding of the ACUTE checkpoint package (`ACUTE/ACUTE.py`) and
proofs about it.  Pure functions of the source are translated to Lean
functions; the stateful pieces that the claims mention (the Copier handoff,
the Flusher loop body, the argument-dict update in `init_ACUTE`) are
translated to explicit state passing.  Python integers are `ℤ`/`ℕ`;
Python byte strings are `List ℕ`; Python float arithmetic (which appears
in `compute_shard` via `int(key_len / compute_node_len)`) is modelled by
correctly rounding the exact rational quotient to an IEEE-754 binary64
value, which is what CPython's true division of two ints does.
-/

namespace ACUTE

/-! ## A model of CPython's `int / int` true division

CPython's `int.__truediv__` returns the IEEE-754 binary64 double nearest to
the exact rational quotient, rounding ties to even.  `roundToFloat` models
that rounding for nonnegative rationals in the normal range of binary64
(overflow to infinity above `2^1024` and subnormals below `2^-1022` are not
modelled; every concrete use in this file is far inside the normal range).
-/

/-- Round a rational to the nearest integer, ties to even
(the IEEE-754 default rounding of a half-way significand). -/
def roundHalfEven (x : ℚ) : ℤ :=
  let f : ℤ := ⌊x⌋
  let frac : ℚ := x - f
  if frac < 1/2 then f
  else if 1/2 < frac then f + 1
  else if f % 2 = 0 then f else f + 1

/-- Round a nonnegative rational to the nearest IEEE-754 binary64 value
(53-bit significand, round half to even), returned as the exact rational
the double denotes. -/
def roundToFloat (x : ℚ) : ℚ :=
  if x = 0 then 0
  else
    let e : ℤ := Int.log 2 x
    let m : ℤ := roundHalfEven (x * (2 : ℚ) ^ (52 - e))
    (m : ℚ) * (2 : ℚ) ^ (e - 52)

/-- CPython `int(a / b)` for nonnegative ints `a`, `b` (`b ≠ 0`): the exact
quotient is correctly rounded to binary64, then truncated toward zero
(floor, since the quotient is nonnegative). -/
def pyIntTrueDiv (a b : ℕ) : ℤ :=
  ⌊roundToFloat ((a : ℚ) / (b : ℚ))⌋

/-! ## `compute_shard` (TRAIN.__CopierClass.__method, lines 294-317)

```python
key_len = len(dump)
compute_node_len = self.__shard_size
q = int(key_len / compute_node_len)
r = int(key_len % compute_node_len)
rank = self.__shard_rank
if rank+1 <= r:
    left = (rank)*(q+1)
    right = (rank+1)*(q+1)-1
else:
    left = (rank)*q+r
    right = (rank+1)*q+r-1
return left, right
```
-/

/-- The `(left, right)` pair computed by `compute_shard` for a dump of
`key_len` bytes, `shard_size` shards and the given shard `rank`.
`q` goes through float true division exactly as in the source;
`key_len % shard_size` is exact Python int arithmetic. -/
def compute_shard (key_len shard_size rank : ℕ) : ℤ × ℤ :=
  let q : ℤ := pyIntTrueDiv key_len shard_size
  let r : ℤ := (key_len % shard_size : ℕ)
  if (rank : ℤ) + 1 ≤ r then ((rank : ℤ) * (q + 1), ((rank : ℤ) + 1) * (q + 1) - 1)
  else ((rank : ℤ) * q + r, ((rank : ℤ) + 1) * q + r - 1)

/-- Python slice `l[a : b]` for integer bounds `0 ≤ a`, clamped to the
list length (negative bounds never arise at the call site). -/
def pySlice {α : Type} (l : List α) (a b : ℤ) : List α :=
  (l.take b.toNat).drop a.toNat

/-- The chunk the Copier actually enqueues: `dump[left:right+1]` when
`left <= right`, else the empty byte string (lines 320-324). -/
def copierSlice (dump : List ℕ) (shard_size rank : ℕ) : List ℕ :=
  let lr := compute_shard dump.length shard_size rank
  if lr.1 ≤ lr.2 then pySlice dump lr.1 (lr.2 + 1) else []

/-- The §3 shard range `[lo(r), hi(r))`, written with exact integer
division as the spec words it (for comparison with `compute_shard`). -/
def specShardRange (n S r : ℕ) : ℕ × ℕ :=
  let q := n / S
  let rem := n % S
  if r < rem then (r * (q + 1), (r + 1) * (q + 1))
  else (r * q + rem, (r + 1) * q + rem)

/-! ## Copier handoff state (TRAIN.__CopierClass, lines 259-364)

The Copier holds `__copy_completed` (initially `True`), a one-slot handoff
`__buffer` (initially `None`), and a lock.  `request` is

```python
self.wait_copy_complete()
with self.__copy_lock:
    if self.is_copy_complete():
        self.__is_copy_complete = False   # note: NOT __copy_completed
        self.__buffer = obj
```

The assignment targets `__is_copy_complete`, which (after name mangling)
is a fresh attribute `_CopierClass__is_copy_complete`; `__copy_completed`
is not written.  The state below records all three attributes; the stray
attribute starts out absent (`none`). -/
structure CopierState (α : Type) where
  copy_completed : Bool
  is_copy_complete_stray : Option Bool
  buffer : Option α
  deriving Repr, DecidableEq

/-- A freshly constructed Copier (lines 272-274):
`__copy_completed = True`, no stray attribute, empty handoff slot. -/
def copierInit (α : Type) : CopierState α :=
  { copy_completed := true, is_copy_complete_stray := none, buffer := none }

/-- The state transformation of the body of `request` (the part after
`wait_copy_complete` returned, run under the lock, lines 354-358). -/
def copierRequest {α : Type} (s : CopierState α) (obj : α) : CopierState α :=
  if s.copy_completed then
    { s with is_copy_complete_stray := some false, buffer := some obj }
  else s

/-- The worker's consumption of one handoff (lines 277-288): once the slot
is non-empty it serializes the snapshot, sets the slot back to `None` and
then sets `__copy_completed = True` under the lock. -/
def copierWorkerConsume {α : Type} (s : CopierState α) : CopierState α :=
  match s.buffer with
  | none => s
  | some _ => { s with buffer := none, copy_completed := true }

/-! ## Flusher loop body (REMOTE.__FlusherClass.__method, lines 549-564)

One iteration, for the popped slot `remote_buffer_index`:

```python
entire_recv_data = b''.join(self.__remote_buffer[remote_buffer_index])
self.__clear_dirty_bit(remote_buffer_index)
file_path_name = self.__get_file_name()
with open(file_path_name, 'wb') as f:
    f.write(entire_recv_data); f.flush(); os.fsync(...)
```

The iteration is modelled as a sequence of atomic program points; `slot`
is the content `remote_buffer[i]` (a cell per shard), `dirtyBit` the slot's
dirty bit (claimed by the master, hence `true` when the iteration starts),
`written` the data durably written to the slot's file this cycle. -/
structure FlusherState where
  joined : Option (List ℕ)
  dirtyBit : Bool
  written : Option (List ℕ)
  deriving Repr, DecidableEq

/-- The state of the flusher iteration for a slot holding `slot` after `k`
atomic steps: `0` = just popped the index, `1` = after the `b''.join`,
`2` = after `__clear_dirty_bit`, `3` (and beyond) = after the file write
completed. -/
def flusherTrace (slot : List (List ℕ)) : ℕ → FlusherState
  | 0 => { joined := none, dirtyBit := true, written := none }
  | 1 => { joined := some slot.flatten, dirtyBit := true, written := none }
  | 2 => { joined := some slot.flatten, dirtyBit := false, written := none }
  | _ + 3 => { joined := some slot.flatten, dirtyBit := false, written := some slot.flatten }

/-! ## Checkpoint file naming (REMOTE.__get_file_name_and_path, lines 669-683)

```python
fileName = "./" + str(self.__model_name)
if self.__file_save_in_dictionary:
    fileName = "./" + self.__model_name+"/" + fileName
if self.__file_name_include_datetime:
    fileName = fileName + "_" + datetime.now().strftime("%Y-%m-%d-%H%M%S")
fileName = fileName + ".pt.tar"
```

`now` stands for the `strftime` result. -/
def get_file_name_and_path (model_name : String)
    (file_save_in_dictionary file_name_include_datetime : Bool)
    (now : String) : String :=
  let fileName := "./" ++ model_name
  let fileName :=
    if file_save_in_dictionary then "./" ++ model_name ++ "/" ++ fileName else fileName
  let fileName :=
    if file_name_include_datetime then fileName ++ "_" ++ now else fileName
  fileName ++ ".pt.tar"

/-- The file path exactly as the claim words it:
`"./" ++ m ++ ".pt.tar"` with optional datetime suffix, or the file placed
under `./m/` as `"./" ++ m ++ "/" ++ m ++ ... ++ ".pt.tar"` (for
comparison with `get_file_name_and_path`). -/
def claimedFileName (model_name : String)
    (file_save_in_dictionary file_name_include_datetime : Bool)
    (now : String) : String :=
  (if file_save_in_dictionary then "./" ++ model_name ++ "/" ++ model_name
   else "./" ++ model_name)
  ++ (if file_name_include_datetime then "_" ++ now else "")
  ++ ".pt.tar"

/-! ## Save-count math (calculate_save_count, lines 768-787)

```python
save_points = list(range(1, total_epochs+1, save_period))
save_counts = len([point for point in save_points if point >= start_epoch])
```
-/

/-- Number of elements of Python `range(a, b, s)` for `s ≠ 0`:
`max(0, ceil((b-a)/s))` for positive step and symmetrically for negative
step (`Int.toNat` clamps the negative case to `0`). -/
def pyRangeLen (a b s : ℤ) : ℕ :=
  if 0 < s then (b - a + s - 1).toNat / s.toNat
  else (a - b - s - 1).toNat / (-s).toNat

/-- Python `list(range(a, b, s))`; a zero step raises `ValueError`. -/
def pyRange (a b s : ℤ) : Except String (List ℤ) :=
  if s = 0 then .error "range() arg 3 must not be zero"
  else .ok ((List.range (pyRangeLen a b s)).map fun i : ℕ => a + (i : ℤ) * s)

/-- `calculate_save_count` (lines 768-787); the `Except` layer records the
`ValueError` that `range` raises on a zero `save_period`. -/
def calculate_save_count (start_epoch total_epochs save_period : ℤ) :
    Except String ℕ :=
  (pyRange 1 (total_epochs + 1) save_period).map fun save_points =>
    (save_points.filter fun point => start_epoch ≤ point).length

/-- The spec set `{ e ∈ {1, 1+P, 1+2P, …} : e ≤ E_total ∧ e ≥ E_start }`
(§3 "Save count"), as a finite set of integers. -/
def saveEpochSpecSet (start total P : ℤ) : Finset ℤ :=
  (Finset.Icc 1 total).filter fun e => start ≤ e ∧ P ∣ (e - 1)

/-- The starting epoch `init_ACUTE` actually uses (lines 816, 824-828): the
resume snapshot's stored epoch plus one when a snapshot path is given,
the configured `starting_epoch` otherwise. -/
def initStartingEpoch (configured : ℤ) (snapshotEpoch : Option ℤ) : ℤ :=
  match snapshotEpoch with
  | some e => e + 1
  | none => configured

/-- The save count `init_ACUTE` computes (line 835). -/
def initSaveCount (configured : ℤ) (snapshotEpoch : Option ℤ)
    (total_epochs save_period : ℤ) : Except String ℕ :=
  calculate_save_count (initStartingEpoch configured snapshotEpoch) total_epochs save_period

/-! ## Role election (MPI.make_sharding_rank / MPI.set_environ, lines 177-217)

```python
localRankList = [i for i in localRank]        # the all-gather result
sharding_rank_list = []
for i in range(self.size-1):
    if localRankList[i] == 0:
        sharding_rank_list.append(i)
```

`self.size` equals the length of the gathered list (one entry per process).
-/

/-- The shard-leader list: world ranks `i` below `size - 1` (everything but
the remote sink) whose gathered local rank is `0`, in increasing order.
The `getD` default is unreachable because the scanned indices are below
the list length. -/
def make_sharding_rank (localRankList : List ℤ) : List ℕ :=
  (List.range (localRankList.length - 1)).filter fun i => localRankList.getD i (-1) == 0

/-- The `SHARD_RANK` value `set_environ` publishes (lines 214-217): the
caller's position in the shard-leader list when its local rank is `0`,
`-1` otherwise.  (`list.index` in the source returns the first position;
for a trainer with local rank `0` the rank is in the list.) -/
def shard_rank_env (sharding_rank_list : List ℕ) (rank : ℕ) (local_rank : ℤ) : ℤ :=
  if local_rank = 0 then (sharding_rank_list.indexOf rank : ℕ) else -1

/-- The `WORLD_SIZE` value `set_environ` publishes (line 210). -/
def world_size_env (size : ℕ) : ℕ := size - 1

/-! ## init_ACUTE configuration guards (lines 789-843)

`init_ACUTE` runs, in order: the override-key check, the dict update and
field reads, the snapshot-path existence check, MPI construction and
`make_sharding_rank`, the shard-size assertion — and only then builds the
REMOTE or TRAIN node and starts its worker threads.  The model returns the
first configuration error, or `()` on reaching the node-construction
point; an empty `snapshot_path` stands for a falsy value (`None` or `""`).
-/

inductive InitError where
  | unexpectedKey (key : String)
  | missingSnapshot (path : String)
  | shardSizeTooLarge (given : ℤ) (maxAllowed : ℕ)
  deriving Repr, DecidableEq

/-- The guard prefix of `init_ACUTE`: everything that can fail before any
node object is constructed or worker thread started. -/
def initGuards (argKeys overrideKeys : List String)
    (snapshot_path : String) (pathExists : String → Bool)
    (shard_size : ℤ) (shardLeaders : List ℕ) : Except InitError Unit :=
  match overrideKeys.find? (fun key => !(argKeys.contains key)) with
  | some key => .error (.unexpectedKey key)
  | none =>
    if snapshot_path ≠ "" ∧ pathExists snapshot_path = false then
      .error (.missingSnapshot snapshot_path)
    else if (shardLeaders.length : ℤ) < shard_size then
      .error (.shardSizeTooLarge shard_size shardLeaders.length)
    else .ok ()

/-! ## The override update of the caller's `args` (lines 805-811)

```python
args_dict = vars(args)
valid_keys = set(args_dict.keys())
for key in overrides:
    if key not in valid_keys:
        raise ValueError(f"Unexpected key: " + key)
args_dict.update(overrides)
```

`vars(args)` is the live `__dict__` of the caller's object, so the
`update` mutates `args` in place; the raise happens before the update.
A Python dict is modelled as an association list with unique keys, in
insertion order. -/

/-- `d[k] = v` on a Python dict: replace the value at an existing key
(keeping its position), or append a new binding. -/
def dictSet {V : Type} (d : List (String × V)) (kv : String × V) :
    List (String × V) :=
  if (d.lookup kv.1).isSome then
    d.map fun p => if p.1 = kv.1 then (p.1, kv.2) else p
  else d ++ [kv]

/-- `d.update(ov)` on Python dicts. -/
def dictUpdate {V : Type} (d ov : List (String × V)) : List (String × V) :=
  ov.foldl dictSet d

/-- The effect of lines 805-811 of `init_ACUTE` on the caller's `args`
dict: the updated dict, or the `ValueError` for the first unknown
override key. -/
def initArgsEffect {V : Type} (d ov : List (String × V)) :
    Except String (List (String × V)) :=
  match ov.find? (fun kv => (d.lookup kv.1).isNone) with
  | some kv => .error ("Unexpected key: " ++ kv.1)
  | none => .ok (dictUpdate d ov)

/-- The caller's `args` dict after `init_ACUTE` ran (successfully or not):
unchanged when the `ValueError` was raised, updated otherwise. -/
def argsAfterInit {V : Type} (d ov : List (String × V)) : List (String × V) :=
  match initArgsEffect d ov with
  | .error _ => d
  | .ok d2 => d2

/-! # Theorems -/

/-! ## Helper lemmas: evaluating the float model at `2^54 + 1` -/

lemma intLog_pow54 : Int.log 2 ((2^54 + 1 : ℚ)) = 54 := by
  rw [show ((2^54 + 1 : ℚ)) = ((2^54 + 1 : ℕ) : ℚ) by norm_num, Int.log_natCast]
  have h : Nat.log 2 (2^54 + 1) = 54 :=
    Nat.log_eq_of_pow_le_of_lt_pow (by norm_num) (by norm_num)
  rw [show (2^54 + 1 : ℕ) = 18014398509481985 by norm_num] at h
  norm_num [h]

lemma roundHalfEven_pow54 :
    roundHalfEven ((2^54 + 1 : ℚ) * (2 : ℚ) ^ ((52 : ℤ) - 54)) = 2^52 := by
  have h4 : ((2^54 + 1 : ℚ) * (2 : ℚ) ^ ((52 : ℤ) - 54)) = (2^54 + 1 : ℚ) / 4 := by
    norm_num [zpow_neg]
  rw [h4]
  have hf : (⌊((2^54 + 1 : ℚ) / 4)⌋ : ℤ) = 2^52 := by norm_num
  unfold roundHalfEven
  rw [hf]
  norm_num

/-- `2^54 + 1` is not representable in binary64 (it needs 55 significand
bits); the nearest double is `2^54`, at distance `1` against `3` for the
next value `2^54 + 4`. -/
lemma roundToFloat_pow54 : roundToFloat ((2^54 + 1 : ℚ)) = 2^54 := by
  unfold roundToFloat
  rw [if_neg (by norm_num : ¬((2^54 + 1 : ℚ)) = 0), intLog_pow54]
  show (↑(roundHalfEven ((2^54 + 1 : ℚ) * (2 : ℚ) ^ ((52 : ℤ) - 54))) : ℚ)
      * (2 : ℚ) ^ ((54 : ℤ) - 52) = 2^54
  rw [roundHalfEven_pow54]
  norm_num

lemma pyIntTrueDiv_pow54 : pyIntTrueDiv (2^54 + 1) 1 = 2^54 := by
  unfold pyIntTrueDiv
  rw [show (((2^54 + 1 : ℕ) : ℚ) / ((1 : ℕ) : ℚ)) = ((2^54 + 1 : ℚ)) by push_cast; ring]
  rw [roundToFloat_pow54]
  norm_num

/-- C1.  The claimed partition fails on the code for large dumps: at
`n = 2^54 + 1` bytes and `shard_size = 1`, the only shard's slice is
`[0, 2^54)` (because `int(n / S)` rounds the quotient to binary64), so the
union of the shard ranges is `[0, 2^54) ≠ [0, n)` — byte `2^54` is lost —
while the §3 formula with exact integer division gives `[0, n)` as
claimed.  The spec (§3, §8.1) is clearly the intent and `int(n / S)`
in place of `n // S` the slip. -/
theorem compute_shard_drops_final_byte :
    compute_shard (2^54 + 1) 1 0 = (0, 2^54 - 1) ∧
    specShardRange (2^54 + 1) 1 0 = (0, 2^54 + 1) := by
  constructor
  · unfold compute_shard
    rw [pyIntTrueDiv_pow54]
    norm_num
  · decide

/-- C8.  The quotient `q = int(key_len / compute_node_len)` is not exact
integer division for arbitrarily large `key_len`: at `key_len = 2^54 + 1`,
`shard_size = 1` the float rounding gives `2^54` while floor division
gives `2^54 + 1`.  The spec's §3 formula (`q = n / S (integer)`) is the
intent; the true-division slip is the bug. -/
theorem pyIntTrueDiv_rounds_at_pow54 :
    pyIntTrueDiv (2^54 + 1) 1 = 2^54 ∧ ((2^54 + 1 : ℤ) / 1) = 2^54 + 1 :=
  ⟨pyIntTrueDiv_pow54, by norm_num⟩

/-- C3.  After `request` returns on a fresh Copier, the completion flag
`__copy_completed` is still `true` while the handoff slot holds the
snapshot: the "clear" in `request` writes the mistyped attribute
`__is_copy_complete` (spec design note 2), so the claimed postcondition
"the completion flag C is false, and C is true only when the slot is
empty" is violated by the code. -/
theorem copier_request_leaves_flag_true :
    (copierRequest (copierInit ℕ) 42).copy_completed = true ∧
    (copierRequest (copierInit ℕ) 42).buffer = some 42 := ⟨rfl, rfl⟩

/-- C4 counterexample.  Directly after `__clear_dirty_bit` (program point
2 of the flusher iteration) the dirty bit is already `0` although the file
write of this cycle has not happened yet: the claim "the dirty bit is
cleared only after the data has been written to its file" fails. -/
theorem flusher_clears_dirty_before_write :
    (flusherTrace [[1], [2]] 2).dirtyBit = false ∧
    (flusherTrace [[1], [2]] 2).written = none := ⟨rfl, rfl⟩

/-- C4 as amended.  In every flusher iteration the dirty bit is cleared
only after the concatenation `b''.join(remote_buffer[i])` has been
captured (so reusing the slot cannot corrupt this cycle's data), and the
file write that follows stores exactly that captured concatenation. -/
theorem flusher_clears_only_after_join (slot : List (List ℕ)) (k : ℕ)
    (h : (flusherTrace slot k).dirtyBit = false) :
    (flusherTrace slot k).joined = some slot.flatten ∧
    (flusherTrace slot 3).written = some slot.flatten := by
  rcases k with _ | _ | _ | k
  · simp [flusherTrace] at h
  · simp [flusherTrace] at h
  · exact ⟨rfl, rfl⟩
  · exact ⟨rfl, rfl⟩

theorem flusher_clears_only_after_join_witness :
    (flusherTrace [[3], [4]] 2).dirtyBit = false ∧
    ((flusherTrace [[3], [4]] 2).joined = some [3, 4] ∧
      (flusherTrace [[3], [4]] 3).written = some [3, 4]) :=
  ⟨rfl, flusher_clears_only_after_join [[3], [4]] 2 rfl⟩

/-- C5 counterexample.  With `file_save_in_dictionary = True` the code
prefixes the directory onto a name that already starts with `./`, so the
produced string is `./m/./m.pt.tar`, not the claimed `./m/m.pt.tar`. -/
theorem file_name_in_directory_counterexample :
    get_file_name_and_path "m" true false "" = "./m/./m.pt.tar" ∧
    get_file_name_and_path "m" true false "" ≠ claimedFileName "m" true false "" := by
  constructor
  · rfl
  · decide

/-- C5 as amended.  With `file_save_in_dictionary = False` the path is
exactly `"./" ++ model ++ [optional "_" ++ datetime] ++ ".pt.tar"` as
claimed; with the flag set the file is placed under `./model/`, but the
literal string is `"./" ++ model ++ "/" ++ "./" ++ model ++ … ++ ".pt.tar"`
(an extra `./` path segment that still resolves to `./model/model…`). -/
theorem get_file_name_characterization (m now : String) (dt : Bool) :
    get_file_name_and_path m false dt now = claimedFileName m false dt now ∧
    get_file_name_and_path m true dt now =
      "./" ++ m ++ "/" ++ ("./" ++ m) ++ (if dt then "_" ++ now else "") ++ ".pt.tar" := by
  cases dt <;>
    simp [get_file_name_and_path, claimedFileName, String.append_assoc]

/-- C10.  `calculate_save_count` is total for any `save_period ≥ 1`
(it returns a natural number, hence a non-negative count), and raises
the `range` step-must-not-be-zero `ValueError` when `save_period = 0`. -/
theorem calculate_save_count_total (start total P : ℤ) :
    (1 ≤ P → ∃ c : ℕ, calculate_save_count start total P = .ok c) ∧
    (P = 0 → calculate_save_count start total P =
      .error "range() arg 3 must not be zero") := by
  constructor
  · intro hP
    unfold calculate_save_count pyRange
    rw [if_neg (by omega : ¬P = 0)]
    exact ⟨_, rfl⟩
  · intro h
    subst h
    rfl

theorem calculate_save_count_total_witness :
    (∃ c : ℕ, calculate_save_count 6 10 2 = .ok c) ∧
    calculate_save_count 1 3 0 = .error "range() arg 3 must not be zero" :=
  ⟨(calculate_save_count_total 6 10 2).1 (by norm_num),
   (calculate_save_count_total 1 3 0).2 rfl⟩

/-! ## Save-count equals the spec set cardinality (C2) -/

lemma length_filter_range (n : ℕ) (q : ℕ → Bool) :
    ((List.range n).filter q).length =
      ((Finset.range n).filter fun i => q i = true).card := by
  induction n with
  | zero => simp
  | succ m ih =>
    rw [List.range_succ, List.filter_append, List.length_append, Finset.range_succ,
      Finset.filter_insert]
    by_cases hq : q m = true
    · rw [if_pos hq]
      rw [Finset.card_insert_of_not_mem (fun hmem => Finset.not_mem_range_self
        (Finset.mem_of_mem_filter m hmem))]
      simp [hq, ih]
    · rw [if_neg hq]
      simp [hq, ih]

/-- The length of `range(1, total+1, P)` counts exactly the indices `i`
with `1 + i·P ≤ total`. -/
lemma pyRangeLen_lt_iff (total P : ℤ) (htot : 0 ≤ total) (hP : 1 ≤ P) (i : ℕ) :
    i < pyRangeLen 1 (total + 1) P ↔ 1 + (i : ℤ) * P ≤ total := by
  have hPt : 0 < P.toNat := by omega
  have hN : (0 : ℤ) ≤ total + P - 1 := by omega
  unfold pyRangeLen
  rw [if_pos (by omega : (0 : ℤ) < P)]
  rw [show total + 1 - 1 + P - 1 = total + P - 1 by ring]
  rw [show (i < (total + P - 1).toNat / P.toNat) ↔
      (i + 1 ≤ (total + P - 1).toNat / P.toNat) from Iff.rfl]
  rw [Nat.le_div_iff_mul_le hPt]
  constructor
  · intro h
    have hc : (((i + 1) * P.toNat : ℕ) : ℤ) ≤ ((total + P - 1).toNat : ℤ) := by
      exact_mod_cast h
    rw [Int.toNat_of_nonneg hN] at hc
    push_cast [Int.toNat_of_nonneg (by omega : (0 : ℤ) ≤ P)] at hc
    nlinarith
  · intro h
    have hc : (((i + 1) * P.toNat : ℕ) : ℤ) ≤ total + P - 1 := by
      push_cast [Int.toNat_of_nonneg (by omega : (0 : ℤ) ≤ P)]
      nlinarith
    rw [← Int.toNat_of_nonneg hN] at hc
    exact_mod_cast hc

/-- The bijection `i ↦ 1 + i·P` between counted indices and the spec's
epoch set. -/
lemma range_filter_card_eq_spec_card (start total P : ℤ)
    (htot : 0 ≤ total) (hP : 1 ≤ P) :
    ((Finset.range (pyRangeLen 1 (total + 1) P)).filter
        fun i : ℕ => start ≤ 1 + (i : ℤ) * P).card =
      (saveEpochSpecSet start total P).card := by
  have hlen := pyRangeLen_lt_iff total P htot hP
  apply Finset.card_nbij' (fun i : ℕ => 1 + (i : ℤ) * P) (fun e : ℤ => ((e - 1) / P).toNat)
  · intro i hi
    rw [Finset.mem_filter, Finset.mem_range] at hi
    rw [saveEpochSpecSet, Finset.mem_filter, Finset.mem_Icc]
    refine ⟨⟨by nlinarith [mul_nonneg (Int.natCast_nonneg i) (by omega : (0 : ℤ) ≤ P)],
      (hlen i).mp hi.1⟩, hi.2, ⟨i, by ring⟩⟩
  · intro e he
    rw [saveEpochSpecSet, Finset.mem_filter, Finset.mem_Icc] at he
    obtain ⟨⟨he1, he2⟩, hstart, hdvd⟩ := he
    have hk : P * ((e - 1) / P) = e - 1 := Int.mul_ediv_cancel' hdvd
    have hk0 : 0 ≤ (e - 1) / P := Int.ediv_nonneg (by omega) (by omega)
    rw [Finset.mem_filter, Finset.mem_range]
    have hcast : (((e - 1) / P).toNat : ℤ) = (e - 1) / P := Int.toNat_of_nonneg hk0
    constructor
    · rw [hlen]
      rw [hcast]
      nlinarith [hk]
    · rw [hcast]
      nlinarith [hk]
  · intro i hi
    have h : (1 + (i : ℤ) * P - 1) / P = i := by
      rw [show 1 + (i : ℤ) * P - 1 = i * P by ring]
      exact Int.mul_ediv_cancel _ (by omega)
    rw [h]
    exact Int.toNat_natCast i
  · intro e he
    rw [saveEpochSpecSet, Finset.mem_filter, Finset.mem_Icc] at he
    obtain ⟨⟨he1, he2⟩, hstart, hdvd⟩ := he
    have hk : P * ((e - 1) / P) = e - 1 := Int.mul_ediv_cancel' hdvd
    have hk0 : 0 ≤ (e - 1) / P := Int.ediv_nonneg (by omega) (by omega)
    have hcast : (((e - 1) / P).toNat : ℤ) = (e - 1) / P := Int.toNat_of_nonneg hk0
    rw [hcast]
    nlinarith [hk]

lemma calculate_save_count_eq_card (start total P : ℤ)
    (htot : 0 ≤ total) (hP : 1 ≤ P) :
    calculate_save_count start total P = .ok (saveEpochSpecSet start total P).card := by
  unfold calculate_save_count pyRange
  rw [if_neg (by omega : ¬P = 0)]
  simp only [Except.map]
  congr 1
  rw [List.filter_map, List.length_map, length_filter_range]
  rw [← range_filter_card_eq_spec_card start total P htot hP]
  exact congrArg Finset.card (Finset.filter_congr fun i _ => by simp)

/-- C2.  For `E_total ≥ 0` and `P ≥ 1`, `calculate_save_count` returns
exactly the cardinality of `{ e ∈ {1, 1+P, 1+2P, …} : e ≤ E_total ∧
e ≥ E_start }`; and when `init_ACUTE` is given a resume snapshot, the
start epoch it feeds into this computation is the snapshot's stored epoch
plus one, overriding the configured `starting_epoch`. -/
theorem calculate_save_count_matches_spec (start total P configured e0 : ℤ)
    (htot : 0 ≤ total) (hP : 1 ≤ P) :
    calculate_save_count start total P = .ok (saveEpochSpecSet start total P).card ∧
    initStartingEpoch configured (some e0) = e0 + 1 ∧
    initStartingEpoch configured none = configured ∧
    initSaveCount configured (some e0) total P = calculate_save_count (e0 + 1) total P :=
  ⟨calculate_save_count_eq_card start total P htot hP, rfl, rfl, rfl⟩

theorem calculate_save_count_matches_spec_witness :
    ((0 : ℤ) ≤ 5 ∧ (1 : ℤ) ≤ 2) ∧
    (calculate_save_count 2 5 2 = .ok (saveEpochSpecSet 2 5 2).card ∧
      initStartingEpoch 0 (some 4) = 4 + 1 ∧
      initStartingEpoch 0 none = 0 ∧
      initSaveCount 0 (some 4) 5 2 = calculate_save_count (4 + 1) 5 2) :=
  ⟨⟨by norm_num, by norm_num⟩,
   calculate_save_count_matches_spec 2 5 2 0 4 (by norm_num) (by norm_num)⟩

/-! ## Configuration guards (C6) -/

/-- C6.  `init_ACUTE` fails — before any node object is constructed or
worker thread started, since `initGuards` is the prefix of `init_ACUTE`
that precedes node construction — exactly when one of the three
configuration errors occurs: an override key absent from `args`, a truthy
`snapshot_path` that does not exist, or a configured `shard_size` larger
than the number of discovered shard leaders. -/
theorem init_fails_iff_config_error (argKeys overrideKeys : List String)
    (snapshot_path : String) (pathExists : String → Bool)
    (shard_size : ℤ) (shardLeaders : List ℕ) :
    (∃ e, initGuards argKeys overrideKeys snapshot_path pathExists
        shard_size shardLeaders = .error e) ↔
      ((∃ key ∈ overrideKeys, argKeys.contains key = false) ∨
        (snapshot_path ≠ "" ∧ pathExists snapshot_path = false) ∨
        (shardLeaders.length : ℤ) < shard_size) := by
  unfold initGuards
  rcases hfind : overrideKeys.find? (fun key => !(argKeys.contains key)) with _ | key
  · have hnone := List.find?_eq_none.mp hfind
    have hnokey : ¬∃ key ∈ overrideKeys, argKeys.contains key = false := by
      rintro ⟨key, hmem, hfalse⟩
      exact hnone key hmem (by rw [hfalse]; rfl)
    by_cases hsnap : snapshot_path ≠ "" ∧ pathExists snapshot_path = false
    · rw [if_pos hsnap]
      simp [hsnap, hnokey]
    · rw [if_neg hsnap]
      by_cases hshard : (shardLeaders.length : ℤ) < shard_size
      · rw [if_pos hshard]
        simp [hshard]
      · rw [if_neg hshard]
        constructor
        · rintro ⟨e, he⟩
          simp at he
        · rintro (hbad | hbad | hbad)
          · exact absurd hbad hnokey
          · exact absurd hbad hsnap
          · exact absurd hbad hshard
  · have hp := List.find?_some hfind
    have hmem := List.mem_of_find?_eq_some hfind
    simp only [Bool.not_eq_true', Bool.not_eq_false] at hp
    constructor
    · intro _
      exact Or.inl ⟨key, hmem, by simpa using hp⟩
    · intro _
      exact ⟨.unexpectedKey key, rfl⟩

/-! ## Role election (C7) -/

/-- C7.  The shard-leader list contains, in ascending world-rank order,
exactly the world ranks below `world_size - 1` (every non-remote rank;
the remote sink at index `world_size - 1` is excluded) whose gathered
local rank is `0`; `list.index` then finds a member at its position; and
`set_environ` publishes `SHARD_RANK` as the caller's position in the list
when its local rank is `0` and `-1` otherwise, with `WORLD_SIZE`
published as `world_size - 1`. -/
theorem make_sharding_rank_spec (l : List ℤ) (rank : ℕ)
    (h : rank ∈ make_sharding_rank l) :
    (∀ i : ℕ, i ∈ make_sharding_rank l ↔ i + 1 < l.length ∧ l.getD i (-1) = 0) ∧
      (make_sharding_rank l).Sorted (· < ·) ∧
      (make_sharding_rank l).get? ((make_sharding_rank l).indexOf rank) = some rank ∧
      (∀ r : ℕ, ∀ lr : ℤ, shard_rank_env (make_sharding_rank l) r lr =
        if lr = 0 then ((make_sharding_rank l).indexOf r : ℤ) else -1) ∧
      world_size_env l.length = l.length - 1 := by
  refine ⟨?_, ?_, ?_, ?_, rfl⟩
  · intro i
    simp only [make_sharding_rank, List.mem_filter, List.mem_range, beq_iff_eq]
    constructor
    · rintro ⟨h1, h2⟩
      exact ⟨by omega, h2⟩
    · rintro ⟨h1, h2⟩
      exact ⟨by omega, h2⟩
  · exact (List.sorted_lt_range _).filter _
  · exact List.indexOf_get? h
  · intro r lr
    rfl

theorem make_sharding_rank_spec_witness :
    (0 : ℕ) ∈ make_sharding_rank [0, 1, 0] ∧
    ((∀ i : ℕ, i ∈ make_sharding_rank [0, 1, 0] ↔
        i + 1 < ([0, 1, 0] : List ℤ).length ∧ ([0, 1, 0] : List ℤ).getD i (-1) = 0) ∧
      (make_sharding_rank [0, 1, 0]).Sorted (· < ·) ∧
      (make_sharding_rank [0, 1, 0]).get?
        ((make_sharding_rank [0, 1, 0]).indexOf 0) = some 0 ∧
      (∀ r : ℕ, ∀ lr : ℤ, shard_rank_env (make_sharding_rank [0, 1, 0]) r lr =
        if lr = 0 then ((make_sharding_rank [0, 1, 0]).indexOf r : ℤ) else -1) ∧
      world_size_env ([0, 1, 0] : List ℤ).length = ([0, 1, 0] : List ℤ).length - 1) :=
  ⟨by decide, make_sharding_rank_spec [0, 1, 0] 0 (by decide)⟩

/-! ## The in-place override update of `args` (C9) -/

lemma lookup_cons {V : Type} (k pk : String) (pv : V) (tl : List (String × V)) :
    List.lookup k ((pk, pv) :: tl) = if k = pk then some pv else List.lookup k tl := by
  by_cases h : k = pk
  · subst h
    simp [List.lookup]
  · simp only [List.lookup, if_neg h]
    rw [show (k == pk) = false from beq_eq_false_iff_ne.mpr h]

lemma lookup_dictSet_self {V : Type} (d : List (String × V)) (k : String) (v : V) :
    (dictSet d (k, v)).lookup k = some v := by
  unfold dictSet
  by_cases h : (d.lookup k).isSome
  · rw [if_pos h]
    induction d with
    | nil => simp at h
    | cons p tl ih =>
      obtain ⟨pk, pv⟩ := p
      by_cases hp : pk = k
      · subst hp
        simp [lookup_cons]
      · have hkp : ¬k = pk := fun e => hp e.symm
        rw [lookup_cons, if_neg hkp] at h
        simp only [List.map_cons, if_neg hp, lookup_cons, if_neg hkp]
        exact ih h
  · rw [if_neg h]
    have hnone : d.lookup k = none := by
      rcases hd : d.lookup k with _ | w
      · rfl
      · rw [hd] at h
        simp at h
    clear h
    induction d with
    | nil => simp [lookup_cons]
    | cons p tl ih =>
      obtain ⟨pk, pv⟩ := p
      rw [lookup_cons] at hnone
      by_cases hkp : k = pk
      · rw [if_pos hkp] at hnone
        exact absurd hnone (by simp)
      · rw [if_neg hkp] at hnone
        rw [List.cons_append, lookup_cons, if_neg hkp]
        exact ih hnone

lemma lookup_dictSet_ne {V : Type} (d : List (String × V)) (k k' : String) (v' : V)
    (h : k ≠ k') : (dictSet d (k', v')).lookup k = d.lookup k := by
  unfold dictSet
  by_cases hs : (d.lookup k').isSome
  · rw [if_pos hs]
    clear hs
    induction d with
    | nil => simp
    | cons p tl ih =>
      obtain ⟨pk, pv⟩ := p
      by_cases hp : pk = k'
      · subst hp
        have hkp : ¬k = pk := h
        simp [lookup_cons, hkp, ih]
      · by_cases hkp : k = pk
        · subst hkp
          simp [lookup_cons, hp]
        · simp [lookup_cons, hkp, hp, ih]
  · rw [if_neg hs]
    clear hs
    induction d with
    | nil => simp [lookup_cons, h]
    | cons p tl ih =>
      obtain ⟨pk, pv⟩ := p
      by_cases hkp : k = pk
      · subst hkp
        simp [List.cons_append, lookup_cons]
      · simp only [List.cons_append, lookup_cons, if_neg hkp]
        exact ih

lemma lookup_dictUpdate_not_mem {V : Type} (ov d : List (String × V)) (k : String)
    (h : ∀ kv ∈ ov, k ≠ kv.1) : (dictUpdate d ov).lookup k = d.lookup k := by
  induction ov generalizing d with
  | nil => rfl
  | cons kv tl ih =>
    rw [dictUpdate, List.foldl_cons,
      show tl.foldl dictSet (dictSet d kv) = dictUpdate (dictSet d kv) tl from rfl]
    rw [ih (dictSet d kv) (fun kv2 h2 => h kv2 (List.mem_cons_of_mem _ h2))]
    obtain ⟨k', v'⟩ := kv
    exact lookup_dictSet_ne d k k' v' (h (k', v') (List.mem_cons_self _ _))

lemma lookup_dictUpdate_mem {V : Type} (ov d : List (String × V)) (k : String) (v : V)
    (hnd : (ov.map Prod.fst).Nodup) (hmem : (k, v) ∈ ov) :
    (dictUpdate d ov).lookup k = some v := by
  induction ov generalizing d with
  | nil => simp at hmem
  | cons kv tl ih =>
    rw [List.map_cons, List.nodup_cons] at hnd
    rw [dictUpdate, List.foldl_cons,
      show tl.foldl dictSet (dictSet d kv) = dictUpdate (dictSet d kv) tl from rfl]
    rcases List.mem_cons.mp hmem with heq | htl
    · subst heq
      rw [lookup_dictUpdate_not_mem tl (dictSet d (k, v)) k
        (fun kv2 h2 e => hnd.1 (by rw [e]; exact List.mem_map.mpr ⟨kv2, h2, rfl⟩))]
      exact lookup_dictSet_self d k v
    · exact ih (dictSet d kv) hnd.2 htl

/-- C9.  `init_ACUTE` mutates the caller's `args` in place through
`vars(args).update(overrides)`: after a successful call every override key
reads back its override value from `args`; and when some override key is
unknown, the `ValueError` is raised before the update, leaving `args`
completely unchanged. -/
theorem init_ACUTE_updates_args_in_place {V : Type} (d ov : List (String × V))
    (k : String) (v : V) (hnd : (ov.map Prod.fst).Nodup) :
    ((∀ kv ∈ ov, (d.lookup kv.1).isSome) → (k, v) ∈ ov →
        initArgsEffect d ov = .ok (dictUpdate d ov) ∧
        argsAfterInit d ov = dictUpdate d ov ∧
        (dictUpdate d ov).lookup k = some v) ∧
    ((d.lookup k).isNone → (k, v) ∈ ov →
        (∃ msg, initArgsEffect d ov = .error msg) ∧ argsAfterInit d ov = d) := by
  constructor
  · intro hall hmem
    have hfind : ov.find? (fun kv => (d.lookup kv.1).isNone) = none := by
      apply List.find?_eq_none.mpr
      intro kv hkv
      have hs := hall kv hkv
      simp only [Option.isNone_iff_eq_none]
      intro hnone
      rw [hnone] at hs
      simp at hs
    refine ⟨?_, ?_, lookup_dictUpdate_mem ov d k v hnd hmem⟩
    · unfold initArgsEffect
      rw [hfind]
    · unfold argsAfterInit initArgsEffect
      rw [hfind]
  · intro hk hmem
    have hex : ∃ kv ∈ ov, (fun kv => (d.lookup kv.1).isNone) kv = true :=
      ⟨(k, v), hmem, by simpa using hk⟩
    have hfs : (ov.find? fun kv => (d.lookup kv.1).isNone).isSome :=
      List.find?_isSome.mpr hex
    obtain ⟨kv0, hkv0⟩ := Option.isSome_iff_exists.mp hfs
    refine ⟨⟨"Unexpected key: " ++ kv0.1, ?_⟩, ?_⟩
    · unfold initArgsEffect
      rw [hkv0]
    · unfold argsAfterInit initArgsEffect
      rw [hkv0]

theorem init_ACUTE_updates_args_in_place_witness :
    (initArgsEffect [("a", 1), ("b", 2)] [("b", 5)] =
        .ok (dictUpdate [("a", 1), ("b", 2)] [("b", 5)]) ∧
      argsAfterInit [("a", 1), ("b", 2)] [("b", 5)] =
        dictUpdate [("a", 1), ("b", 2)] [("b", 5)] ∧
      (dictUpdate [("a", 1), ("b", 2)] [("b", 5)]).lookup "b" = some 5) ∧
    ((∃ msg, initArgsEffect [("a", 1), ("b", 2)] [("zz", 7)] = .error msg) ∧
      argsAfterInit [("a", 1), ("b", 2)] [("zz", 7)] = [("a", 1), ("b", 2)]) :=
  ⟨(init_ACUTE_updates_args_in_place [("a", 1), ("b", 2)] [("b", 5)] "b" 5
      (by decide)).1 (by decide) (by decide),
   (init_ACUTE_updates_args_in_place [("a", 1), ("b", 2)] [("zz", 7)] "zz" 7
      (by decide)).2 (by decide) (by decide)⟩

end ACUTE
